import Mathlib

/-!
Verification of the path/URL resolution layer of the `jenkins-api` crate.

Strings are modelled as `List Char`; Rust byte indices coincide with the
character indices used here on every slice boundary the code actually
takes (all boundaries are slash positions or fixed ASCII offsets).
Rust panics (out-of-bounds indexing, `Result::unwrap` on `Err`) are
modelled by the parser returning `none`.
-/

namespace JenkinsApi

/-- Rust slice `&s[a..b]` on a string, at character granularity. -/
def slice (l : List Char) (a b : Nat) : List Char :=
  (l.drop a).take (b - a)

/-- Positions of the slash characters, as produced by
`path.char_indices().filter(|c| c.1 == '/').map(|c| c.0)`. -/
def slashPositionsAux : List Char → Nat → List Nat
  | [], _ => []
  | c :: rest, i =>
    if c = '/' then i :: slashPositionsAux rest (i + 1)
    else slashPositionsAux rest (i + 1)

/-- All slash positions of a path, starting from index 0. -/
def slashPositions (l : List Char) : List Nat :=
  slashPositionsAux l 0

/-- Value of a digit string, most significant digit first. -/
def digitsToNat (l : List Char) : Nat :=
  l.foldl (fun a c => a * 10 + (c.toNat - '0'.toNat)) 0

/-- The digit-run part of Rust integer `from_str`: at least one
character, all decimal digits. -/
def parseDigits (l : List Char) : Option Nat :=
  if l ≠ [] ∧ l.all Char.isDigit then some (digitsToNat l) else none

/-- Rust `u32::from_str`: optional leading `+`, then decimal digits, and
the value must fit in 32 bits (overflow is an error). -/
def parseU32 (l : List Char) : Option Nat :=
  let t := match l with
    | '+' :: r => r
    | _ => l
  match parseDigits t with
  | some v => if v < 4294967296 then some v else none
  | none => none

/-- Rust `i32::from_str`: optional leading `+` or `-`, then decimal
digits, with the signed 32-bit range check. -/
def parseI32 (l : List Char) : Option Int :=
  match l with
  | '+' :: r =>
    match parseDigits r with
    | some v => if v ≤ 2147483647 then some (v : Int) else none
    | none => none
  | '-' :: r =>
    match parseDigits r with
    | some v => if v ≤ 2147483648 then some (-(v : Int)) else none
    | none => none
  | _ =>
    match parseDigits l with
    | some v => if v ≤ 2147483647 then some (v : Int) else none
    | none => none

/-- UTF-8 encoding of one character, as byte values. -/
def utf8Bytes (c : Char) : List Nat :=
  let n := c.toNat
  if n < 128 then [n]
  else if n < 2048 then [192 + n / 64, 128 + n % 64]
  else if n < 65536 then [224 + n / 4096, 128 + (n / 64) % 64, 128 + n % 64]
  else [240 + n / 262144, 128 + (n / 4096) % 64, 128 + (n / 64) % 64, 128 + n % 64]

/-- Uppercase hexadecimal digit, as written by the `urlencoding` crate. -/
def hexUpper (n : Nat) : Char :=
  if n < 10 then Char.ofNat ('0'.toNat + n) else Char.ofNat ('A'.toNat + n - 10)

/-- Bytes the `urlencoding` crate leaves unencoded:
ASCII alphanumerics and `-`, `.`, `_`, `~`. -/
def isUnreservedByte (b : Nat) : Bool :=
  (48 ≤ b && b ≤ 57) || (65 ≤ b && b ≤ 90) || (97 ≤ b && b ≤ 122) ||
    b = 45 || b = 46 || b = 95 || b = 126

/-- Model of `urlencoding::encode` (external dependency of the crate):
percent-encode every UTF-8 byte outside the unreserved set, with
uppercase hex digits. -/
def urlencode (s : List Char) : List Char :=
  s.flatMap fun c =>
    (utf8Bytes c).flatMap fun b =>
      if isUnreservedByte b then [Char.ofNat b]
      else ['%', hexUpper (b / 16), hexUpper (b % 16)]

/-- `Name` from `client_internals/path.rs`: a raw name that needs
percent-encoding, or an already URL-encoded name inserted verbatim. -/
inductive Name where
  | Name (s : List Char)
  | UrlEncodedName (s : List Char)
deriving DecidableEq

/-- `impl Display for Name`. -/
def Name.display : JenkinsApi.Name → List Char
  | .Name s => urlencode s
  | .UrlEncodedName s => s

/-- `BuildNumber` from `build/common.rs`. The `Number` payload is a
Rust `u32`; the parser only ever stores values below `2^32`. -/
inductive BuildNumber where
  | LastBuild
  | LastSuccessfulBuild
  | LastStableBuild
  | LastCompletedBuild
  | LastFailedBuild
  | LastUnsuccessfulBuild
  | Number (n : Nat)
  | UnknownAlias (s : List Char)
deriving DecidableEq

/-- `impl Display for BuildNumber`. -/
def BuildNumber.display : BuildNumber → List Char
  | .LastBuild => "lastBuild".toList
  | .LastSuccessfulBuild => "lastSuccessfulBuild".toList
  | .LastStableBuild => "lastStableBuild".toList
  | .LastCompletedBuild => "lastCompletedBuild".toList
  | .LastFailedBuild => "lastFailedBuild".toList
  | .LastUnsuccessfulBuild => "lastUnsuccessfulBuild".toList
  | .Number n => Nat.toDigits 10 n
  | .UnknownAlias s => s

/-- Rust `i32` `Display`, used for the queue item id. -/
def intDisplay (i : Int) : List Char :=
  if i < 0 then '-' :: Nat.toDigits 10 i.natAbs else Nat.toDigits 10 i.natAbs

/-- `Path` from `client_internals/path.rs`: the closed set of resource
locations. -/
inductive Path where
  | Home
  | View (name : Name)
  | AddJobToView (job_name : Name) (view_name : Name)
  | RemoveJobFromView (job_name : Name) (view_name : Name)
  | Job (name : Name) (configuration : Option Name)
  | BuildJob (name : Name)
  | BuildJobWithParameters (name : Name)
  | PollSCMJob (name : Name)
  | JobEnable (name : Name)
  | JobDisable (name : Name)
  | Build (job_name : Name) (number : BuildNumber) (configuration : Option Name)
  | ConsoleText (job_name : Name) (number : BuildNumber)
      (configuration : Option Name) (folder_name : Option Name)
  | ConfigXML (job_name : Name) (folder_name : Option Name)
  | Queue
  | QueueItem (id : Int)
  | MavenArtifactRecord (job_name : Name) (number : BuildNumber)
      (configuration : Option Name)
  | InFolder (folder_name : Name) (path : Path)
  | Computers
  | Computer (name : Name)
  | Raw (path : List Char)
  | CrumbIssuer
deriving DecidableEq

/-- `impl Display for Path`: the renderer, arm by arm. -/
def Path.display : Path → List Char
  | .Home => []
  | .View name => "/view/".toList ++ name.display
  | .AddJobToView job_name view_name =>
      "/view/".toList ++ view_name.display ++ "/addJobToView?name=".toList ++ job_name.display
  | .RemoveJobFromView job_name view_name =>
      "/view/".toList ++ view_name.display ++ "/removeJobFromView?name=".toList ++ job_name.display
  | .Job name (some configuration) =>
      "/job/".toList ++ name.display ++ "/".toList ++ configuration.display
  | .Job name none => "/job/".toList ++ name.display
  | .BuildJob name => "/job/".toList ++ name.display ++ "/build".toList
  | .BuildJobWithParameters name =>
      "/job/".toList ++ name.display ++ "/buildWithParameters".toList
  | .PollSCMJob name => "/job/".toList ++ name.display ++ "/polling".toList
  | .JobEnable name => "/job/".toList ++ name.display ++ "/enable".toList
  | .JobDisable name => "/job/".toList ++ name.display ++ "/disable".toList
  | .Build job_name number none =>
      "/job/".toList ++ job_name.display ++ "/".toList ++ number.display
  | .Build job_name number (some configuration) =>
      "/job/".toList ++ job_name.display ++ "/".toList ++ configuration.display ++
        "/".toList ++ number.display
  | .ConsoleText job_name number none none =>
      "/job/".toList ++ job_name.display ++ "/".toList ++ number.display ++ "/consoleText".toList
  | .ConsoleText job_name number (some configuration) none =>
      "/job/".toList ++ job_name.display ++ "/".toList ++ configuration.display ++
        "/".toList ++ number.display ++ "/consoleText".toList
  | .ConsoleText job_name number none (some folder_name) =>
      "/job/".toList ++ folder_name.display ++ "/job/".toList ++ job_name.display ++
        "/".toList ++ number.display ++ "/consoleText".toList
  | .ConsoleText job_name number (some configuration) (some folder_name) =>
      "/job/".toList ++ folder_name.display ++ "/job/".toList ++ job_name.display ++
        "/".toList ++ configuration.display ++ "/".toList ++ number.display ++
        "/consoleText".toList
  | .ConfigXML job_name none => "/job/".toList ++ job_name.display ++ "/config.xml".toList
  | .ConfigXML job_name (some folder_name) =>
      "/job/".toList ++ folder_name.display ++ "/job/".toList ++ job_name.display ++
        "/config.xml".toList
  | .Queue => "/queue".toList
  | .QueueItem id => "/queue/item/".toList ++ intDisplay id
  | .MavenArtifactRecord job_name number none =>
      "/job/".toList ++ job_name.display ++ "/".toList ++ number.display ++
        "/mavenArtifacts".toList
  | .MavenArtifactRecord job_name number (some configuration) =>
      "/job/".toList ++ job_name.display ++ "/".toList ++ configuration.display ++
        "/".toList ++ number.display ++ "/mavenArtifacts".toList
  | .InFolder folder_name path => "/job/".toList ++ folder_name.display ++ path.display
  | .Computers => "/computer/api/json".toList
  | .Computer name => "/computer/".toList ++ name.display ++ "/api/json".toList
  | .Raw path => path
  | .CrumbIssuer => "/crumbIssuer".toList

/-- The body of `Jenkins::url_to_path` after the slash positions are
computed: the `match (&path[0..slashes[1]], slashes.len())` dispatch,
arm by arm.  `recur` is the recursive call used for folder nesting.
A `none` result models a Rust panic: slash-index out of bounds when the
path has fewer than two slashes, or `.parse().unwrap()` failing on a
mandatory number. -/
def classifyPath (recur : List Char → Option Path) (path : List Char) :
    List Nat → Option Path
  | _ :: s1 :: rest =>
      let seg := slice path 0 s1
      match rest with
      | [] => some (.Raw path)
      | [_] =>
        if seg = "/view".toList then
          some (.View (.UrlEncodedName (slice path 6 (path.length - 1))))
        else if seg = "/job".toList then
          some (.Job (.UrlEncodedName (slice path 5 (path.length - 1))) none)
        else some (.Raw path)
      | [s2, _] =>
        if seg = "/job".toList then
          let last := slice path (s2 + 1) (path.length - 1)
          match parseU32 last with
          | some n =>
            some (.Build (.UrlEncodedName (slice path 5 s2)) (.Number n) none)
          | none =>
            some (.Job (.UrlEncodedName (slice path 5 s2)) (some (.UrlEncodedName last)))
        else if seg = "/queue".toList then
          match parseI32 (slice path (s2 + 1) (path.length - 1)) with
          | some i => some (.QueueItem i)
          | none => none
        else some (.Raw path)
      | [s2, s3, s4] =>
        if seg = "/job".toList then
          if slice path s3 s4 = "/mavenArtifacts".toList then
            match parseU32 (slice path (s3 + 1) (path.length - 1)) with
            | some n =>
              some (.MavenArtifactRecord (.UrlEncodedName (slice path 5 s2)) (.Number n) none)
            | none => none
          else if slice path s2 s3 = "/job".toList then
            match recur (path.drop s2) with
            | some p => some (.InFolder (.UrlEncodedName (slice path 5 s2)) p)
            | none => none
          else
            match parseU32 (slice path (s3 + 1) (path.length - 1)) with
            | some n =>
              some (.Build (.UrlEncodedName (slice path 5 s2)) (.Number n)
                (some (.UrlEncodedName (slice path (s2 + 1) s3))))
            | none => none
        else some (.Raw path)
      | [s2, s3, s4, _] =>
        if seg = "/job".toList then
          if slice path s2 s3 = "/job".toList then
            match recur (path.drop s2) with
            | some p => some (.InFolder (.UrlEncodedName (slice path 5 s2)) p)
            | none => none
          else
            match parseU32 (slice path (s3 + 1) s4) with
            | some n =>
              some (.MavenArtifactRecord (.UrlEncodedName (slice path 5 s2)) (.Number n)
                (some (.UrlEncodedName (slice path (s2 + 1) s3))))
            | none => none
        else some (.Raw path)
      | _ :: _ :: _ :: _ :: _ :: _ => some (.Raw path)
  | _ => none

/-- `Jenkins::url_to_path`, fuelled so that the folder recursion is
structural.  The fuel only decreases on the `InFolder` recursive call,
which strictly shortens the input, so the `url.length + 1` fuel used by
`url_to_path` below never runs out. -/
def url_to_pathF : Nat → List Char → List Char → Option Path
  | 0, _, _ => none
  | fuel + 1, base, url =>
    let path := if base.isPrefixOf url then url.drop base.length else url
    classifyPath (fun u => url_to_pathF fuel base u) path (slashPositions path)

/-- `Jenkins::url_to_path` with the base URL of the client as first
argument. -/
def url_to_path (base url : List Char) : Option Path :=
  url_to_pathF (url.length + 1) base url

mutual

/-- `TreeQueryParam` from `client_internals/tree.rs`: an optional key
name, ordered children, and an optional half-open range.  The `Vec` of
children is modelled by the list-isomorphic `TreeSubkeys` so that the
rendering recursion is structural. -/
inductive TreeQueryParam where
  | mk (keyname : Option (List Char)) (subkeys : TreeSubkeys)
      (range : Option (Nat × Nat))

/-- Ordered children of a `TreeQueryParam` node. -/
inductive TreeSubkeys where
  | nil
  | cons (hd : TreeQueryParam) (tl : TreeSubkeys)

end

/-- The `\x7b{},{}\x7d` range suffix written by `Display for
TreeQueryParam`. -/
def rangeSuffix (r : Nat × Nat) : List Char :=
  '\x7b' :: (Nat.toDigits 10 r.1 ++ ',' :: (Nat.toDigits 10 r.2 ++ ['\x7d']))

mutual

/-- `impl Display for TreeQueryParam` (via `to_string`): the match on
`(keyname, subkeys.len(), range)`, arm by arm. -/
def TreeQueryParam.render : TreeQueryParam → List Char
  | .mk (some k) .nil none => k
  | .mk (some k) .nil (some r) => k ++ rangeSuffix r
  | .mk (some k) subs none => k ++ '[' :: (TreeSubkeys.renderJoin subs ++ [']'])
  | .mk (some k) subs (some r) =>
      k ++ '[' :: (TreeSubkeys.renderJoin subs ++ ']' :: rangeSuffix r)
  | .mk none subs none => TreeSubkeys.renderJoin subs
  | .mk none subs (some r) => TreeSubkeys.renderJoin subs ++ rangeSuffix r

/-- `subkeys.iter().map(TreeQueryParam::to_string).join(",")`. -/
def TreeSubkeys.renderJoin : TreeSubkeys → List Char
  | .nil => []
  | .cons t .nil => t.render
  | .cons t ts => t.render ++ ',' :: ts.renderJoin

end

/-- `Vec::push` on the children list. -/
def TreeSubkeys.push : TreeSubkeys → TreeQueryParam → TreeSubkeys
  | .nil, t => .cons t .nil
  | .cons h tl, t => .cons h (tl.push t)

/-- `TreeBuilder` from `client_internals/tree.rs`. -/
structure TreeBuilder where
  tree : TreeQueryParam

/-- `TreeBuilder::new`. -/
def TreeBuilder.new : TreeBuilder :=
  ⟨.mk none .nil none⟩

/-- `TreeBuilder::object`. -/
def TreeBuilder.object (name : List Char) : TreeBuilder :=
  ⟨.mk (some name) .nil none⟩

/-- `From<&str> for TreeQueryParam`: a bare field name becomes a leaf. -/
def TreeQueryParam.ofStr (s : List Char) : TreeQueryParam :=
  .mk (some s) .nil none

/-- `TreeBuilder::with_field`: push the subfield at the end of the
children list. -/
def TreeBuilder.with_field (b : TreeBuilder) (subfield : TreeQueryParam) : TreeBuilder :=
  match b.tree with
  | .mk keyname subkeys range => ⟨.mk keyname (subkeys.push subfield) range⟩

/-- `TreeBuilder::with_subfield`, an alias of `with_field`. -/
def TreeBuilder.with_subfield (b : TreeBuilder) (subfield : TreeQueryParam) : TreeBuilder :=
  b.with_field subfield

/-- `TreeBuilder::with_range`. -/
def TreeBuilder.with_range (b : TreeBuilder) (range : Nat × Nat) : TreeBuilder :=
  match b.tree with
  | .mk keyname subkeys _ => ⟨.mk keyname subkeys (some range)⟩

/-- `TreeBuilder::build`. -/
def TreeBuilder.build (b : TreeBuilder) : TreeQueryParam :=
  b.tree

/-- `Vec<String>::join(",")` on already-rendered children, used to state
order preservation. -/
def joinComma : List (List Char) → List Char
  | [] => []
  | [x] => x
  | x :: xs => x ++ ',' :: joinComma xs

/-- The children list holding exactly the elements of `ts`, in order. -/
def TreeSubkeys.ofList : List TreeQueryParam → TreeSubkeys
  | [] => .nil
  | t :: ts => .cons t (TreeSubkeys.ofList ts)

/-- Concatenation of children lists. -/
def TreeSubkeys.append : TreeSubkeys → TreeSubkeys → TreeSubkeys
  | .nil, l => l
  | .cons h t, l => .cons h (t.append l)

/-- Repeated `TreeBuilder::with_subfield`: append the fields of `ts` one
by one, in order — the general way a caller populates a node. -/
def TreeBuilder.with_subfields (b : TreeBuilder) : List TreeQueryParam → TreeBuilder
  | [] => b
  | t :: ts => (b.with_subfield t).with_subfields ts

/-- `AdvancedQuery` from `client_internals/mod.rs`. -/
inductive AdvancedQuery where
  | Depth (d : Nat)
  | Tree (t : TreeQueryParam)

/-- `InternalAdvancedQueryParams`, the serialized GET parameters. -/
structure InternalAdvancedQueryParams where
  depth : Option Nat
  tree : Option TreeQueryParam

/-- `impl From<AdvancedQuery> for InternalAdvancedQueryParams`. -/
def InternalAdvancedQueryParams.ofQuery : AdvancedQuery → InternalAdvancedQueryParams
  | .Depth depth => ⟨some depth, none⟩
  | .Tree tree => ⟨none, some tree⟩

lemma take_len_append (l1 l2 : List Char) : (l1 ++ l2).take l1.length = l1 := by
  induction l1 with
  | nil => simp
  | cons c cs ih => simp [ih]

lemma drop_len_append (l1 l2 : List Char) : (l1 ++ l2).drop l1.length = l2 := by
  induction l1 with
  | nil => simp
  | cons c cs ih => simp [ih]

lemma slashAux_append (a : List Char) (ha : '/' ∉ a) (rest : List Char) (i : Nat) :
    slashPositionsAux (a ++ rest) i = slashPositionsAux rest (i + a.length) := by
  induction a generalizing i with
  | nil => simp
  | cons c cs ih =>
    have hc : ¬ c = '/' := fun e => ha (by simp [e])
    have hcs : '/' ∉ cs := fun h => ha (List.mem_cons_of_mem _ h)
    rw [List.cons_append]
    show (if c = '/' then (i : Nat) :: slashPositionsAux (cs ++ rest) (i + 1)
      else slashPositionsAux (cs ++ rest) (i + 1)) = _
    rw [if_neg hc, ih hcs (i + 1)]
    congr 1
    simp
    omega

lemma slashAux_slash (z : List Char) (i : Nat) :
    slashPositionsAux ('/' :: z) i = i :: slashPositionsAux z (i + 1) := by
  simp [slashPositionsAux]

lemma slashAux_single (i : Nat) : slashPositionsAux ['/'] i = [i] := by
  simp [slashPositionsAux]

lemma subsAppend_nil : ∀ s : TreeSubkeys, s.append .nil = s
  | .nil => rfl
  | .cons h t => by
    show TreeSubkeys.cons h (t.append .nil) = TreeSubkeys.cons h t
    rw [subsAppend_nil t]

lemma subsAppend_push : ∀ (s : TreeSubkeys) (t : TreeQueryParam) (l : TreeSubkeys),
    (s.push t).append l = s.append (.cons t l)
  | .nil, t, l => rfl
  | .cons h s, t, l => by
    show TreeSubkeys.cons h ((s.push t).append l) = TreeSubkeys.cons h (s.append (.cons t l))
    rw [subsAppend_push s t l]

lemma with_subfields_eq (ts : List TreeQueryParam) :
    ∀ (kn : Option (List Char)) (subs : TreeSubkeys) (r : Option (Nat × Nat)),
      TreeBuilder.with_subfields ⟨.mk kn subs r⟩ ts
        = ⟨.mk kn (subs.append (TreeSubkeys.ofList ts)) r⟩ := by
  induction ts with
  | nil =>
    intro kn subs r
    show (⟨.mk kn subs r⟩ : TreeBuilder) = _
    rw [show TreeSubkeys.ofList [] = .nil from rfl, subsAppend_nil]
  | cons t ts ih =>
    intro kn subs r
    show TreeBuilder.with_subfields ⟨.mk kn (subs.push t) r⟩ ts = _
    rw [ih, subsAppend_push]
    rfl

lemma renderJoin_ofList (ts : List TreeQueryParam) :
    TreeSubkeys.renderJoin (TreeSubkeys.ofList ts)
      = joinComma (ts.map TreeQueryParam.render) := by
  induction ts with
  | nil => rfl
  | cons t ts ih =>
    cases ts with
    | nil => rfl
    | cons t2 ts2 =>
      show TreeQueryParam.render t ++ ',' :: TreeSubkeys.renderJoin (TreeSubkeys.ofList (t2 :: ts2))
          = TreeQueryParam.render t ++ ',' :: joinComma ((t2 :: ts2).map TreeQueryParam.render)
      rw [ih]

/-- Claim C1, counterexample: the round-trip `parse(render(p)) == p` fails
for the non-`Raw` value `Job \x7b name: "myjob", configuration: None \x7d`,
because the renderer emits `/job/myjob` without the trailing slash the
parser requires; the parse result is `Raw "/job/myjob"`, not the original
value. -/
theorem C1_round_trip_counterexample :
    url_to_path [] (Path.display (.Job (.UrlEncodedName "myjob".toList) none))
        = some (.Raw "/job/myjob".toList) ∧
      url_to_path [] (Path.display (.Job (.UrlEncodedName "myjob".toList) none))
        ≠ some (.Job (.UrlEncodedName "myjob".toList) none) := by
  decide

/-- Claim C1, amended: for every `Job` value with an already-URL-encoded,
slash-free name and no configuration, parsing the rendered string with
the mandatory trailing slash appended returns the original value:
`parse(render(p) ++ "/") == p`. -/
theorem C1_round_trip_amended (n : List Char) (hn : '/' ∉ n) :
    url_to_path [] (Path.display (.Job (.UrlEncodedName n) none) ++ ['/'])
      = some (.Job (.UrlEncodedName n) none) := by
  have hd : Path.display (.Job (.UrlEncodedName n) none) ++ ['/']
      = "/job/".toList ++ (n ++ ['/']) := by
    simp [Path.display, Name.display]
  rw [hd]
  have hsl : slashPositions ("/job/".toList ++ (n ++ ['/'])) = [0, 4, 5 + n.length] := by
    show slashPositionsAux _ 0 = _
    have h1 : slashPositionsAux ("/job/".toList ++ (n ++ ['/'])) 0
        = 0 :: 4 :: slashPositionsAux (n ++ ['/']) 5 := rfl
    rw [h1, slashAux_append n hn, slashAux_single]
  have h0 : url_to_path [] ("/job/".toList ++ (n ++ ['/'])) =
      classifyPath (fun u => url_to_pathF ("/job/".toList ++ (n ++ ['/'])).length [] u)
        ("/job/".toList ++ (n ++ ['/'])) (slashPositions ("/job/".toList ++ (n ++ ['/']))) := rfl
  rw [h0, hsl]
  have hseg : slice ("/job/".toList ++ (n ++ ['/'])) 0 4 = "/job".toList := rfl
  have hname : slice ("/job/".toList ++ (n ++ ['/'])) 5
      (("/job/".toList ++ (n ++ ['/'])).length - 1) = n := by
    show ((("/job/".toList ++ (n ++ ['/'])).drop 5).take _) = n
    have hd5 : ("/job/".toList ++ (n ++ ['/'])).drop 5 = n ++ ['/'] := rfl
    have hlen : ("/job/".toList ++ (n ++ ['/'])).length = n.length + 6 := by
      simp <;> omega
    rw [hd5, hlen, show n.length + 6 - 1 - 5 = n.length from by omega, take_len_append]
  simp only [classifyPath]
  rw [hseg]
  rw [if_neg (by decide : ¬ ("/job".toList = "/view".toList))]
  simp only [↓reduceIte]
  rw [hname]

/-- Claim C1, amended, witness at the job name `myjob`. -/
theorem C1_round_trip_amended_witness :
    url_to_path [] (Path.display (.Job (.UrlEncodedName "myjob".toList) none) ++ ['/'])
      = some (.Job (.UrlEncodedName "myjob".toList) none) :=
  C1_round_trip_amended "myjob".toList (by decide)

/-- Claim C2: for every path `/job/<A>/<B>/` with slash-free segments,
the parser first attempts to parse `<B>` as a Rust `u32`; on success it
returns `Build \x7b job_name: A, number: B, configuration: None \x7d`, and on
any parse failure (non-digit characters or overflow) it returns
`Job \x7b name: A, configuration: Some(B) \x7d`. -/
theorem C2_build_vs_configuration (a b : List Char) (ha : '/' ∉ a) (hb : '/' ∉ b) :
    url_to_path [] ("/job/".toList ++ (a ++ ('/' :: (b ++ ['/'])))) =
      match parseU32 b with
      | some n => some (.Build (.UrlEncodedName a) (.Number n) none)
      | none => some (.Job (.UrlEncodedName a) (some (.UrlEncodedName b))) := by
  have hsl : slashPositions ("/job/".toList ++ (a ++ ('/' :: (b ++ ['/'])))) =
      [0, 4, 5 + a.length, 5 + a.length + 1 + b.length] := by
    show slashPositionsAux _ 0 = _
    have h1 : slashPositionsAux ("/job/".toList ++ (a ++ ('/' :: (b ++ ['/'])))) 0
        = 0 :: 4 :: slashPositionsAux (a ++ ('/' :: (b ++ ['/']))) 5 := rfl
    rw [h1, slashAux_append a ha, slashAux_slash, slashAux_append b hb, slashAux_single]
  have h0 : url_to_path [] ("/job/".toList ++ (a ++ ('/' :: (b ++ ['/'])))) =
      classifyPath
        (fun u => url_to_pathF ("/job/".toList ++ (a ++ ('/' :: (b ++ ['/'])))).length [] u)
        ("/job/".toList ++ (a ++ ('/' :: (b ++ ['/']))))
        (slashPositions ("/job/".toList ++ (a ++ ('/' :: (b ++ ['/']))))) := rfl
  rw [h0, hsl]
  have hseg : slice ("/job/".toList ++ (a ++ ('/' :: (b ++ ['/'])))) 0 4 = "/job".toList := rfl
  have hname : slice ("/job/".toList ++ (a ++ ('/' :: (b ++ ['/'])))) 5 (5 + a.length) = a := by
    show ((("/job/".toList ++ (a ++ ('/' :: (b ++ ['/'])))).drop 5).take (5 + a.length - 5)) = a
    have hd : ("/job/".toList ++ (a ++ ('/' :: (b ++ ['/'])))).drop 5
        = a ++ ('/' :: (b ++ ['/'])) := rfl
    rw [hd, show 5 + a.length - 5 = a.length from by omega, take_len_append]
  have hlast : slice ("/job/".toList ++ (a ++ ('/' :: (b ++ ['/'])))) (5 + a.length + 1)
      (("/job/".toList ++ (a ++ ('/' :: (b ++ ['/'])))).length - 1) = b := by
    show ((("/job/".toList ++ (a ++ ('/' :: (b ++ ['/'])))).drop (5 + a.length + 1)).take _) = b
    have hre : "/job/".toList ++ (a ++ ('/' :: (b ++ ['/'])))
        = (("/job/".toList ++ a) ++ ['/']) ++ (b ++ ['/']) := by simp
    have hpl : (("/job/".toList ++ a) ++ ['/']).length = 5 + a.length + 1 := by
      simp <;> omega
    have hlen2 : (("/job/".toList ++ a ++ ['/']) ++ (b ++ ['/'])).length
        = a.length + b.length + 7 := by
      simp <;> omega
    rw [hre, ← hpl, drop_len_append, hpl, hlen2,
      show a.length + b.length + 7 - 1 - (5 + a.length + 1) = b.length from by omega,
      take_len_append]
  simp only [classifyPath]
  rw [hseg]
  simp only [↓reduceIte]
  rw [hlast, hname]

/-- Claim C2, witness: `/job/foo/42/` parses to a build and
`/job/foo/bar/` parses to a configuration. -/
theorem C2_build_vs_configuration_witness :
    url_to_path [] ("/job/".toList ++ ("foo".toList ++ ('/' :: ("42".toList ++ ['/']))))
        = some (.Build (.UrlEncodedName "foo".toList) (.Number 42) none) ∧
      url_to_path [] ("/job/".toList ++ ("foo".toList ++ ('/' :: ("bar".toList ++ ['/']))))
        = some (.Job (.UrlEncodedName "foo".toList) (some (.UrlEncodedName "bar".toList))) := by
  constructor
  · exact (C2_build_vs_configuration "foo".toList "42".toList (by decide) (by decide)).trans
      (by decide)
  · exact (C2_build_vs_configuration "foo".toList "bar".toList (by decide) (by decide)).trans
      (by decide)

/-- Claim C3: the code never returns `MavenArtifactRecord` on
`/job/<A>/<B>/mavenArtifacts/`; it slices the literal segment
`mavenArtifacts` (instead of `<B>`) as the build number, so the `u32`
parse always fails and the `unwrap` panics (modelled as `none`).  At the
failing input `/job/foo/42/mavenArtifacts/` the claimed result would be
`MavenArtifactRecord \x7b job_name: "foo", number: 42, configuration: None \x7d`. -/
theorem C3_maven_artifacts_panics :
    url_to_path [] "/job/foo/42/mavenArtifacts/".toList = none ∧
      url_to_path [] "/job/foo/42/mavenArtifacts/".toList
        ≠ some (.MavenArtifactRecord (.UrlEncodedName "foo".toList) (.Number 42) none) := by
  decide

/-- Claim C4, counterexample: rendering
`InFolder \x7b folder_name: "folder1", path: Build \x7b "foo", 3, None \x7d \x7d` does
not reproduce the string `/job/folder1/job/foo/3/` — the renderer never
emits the trailing slash. -/
theorem C4_render_counterexample :
    Path.display (.InFolder (.UrlEncodedName "folder1".toList)
        (.Build (.UrlEncodedName "foo".toList) (.Number 3) none))
      ≠ "/job/folder1/job/foo/3/".toList := by
  decide

/-- Claim C4, amended: parsing `/job/folder1/job/foo/3/` returns
`InFolder \x7b folder_name: "folder1", path: Build \x7b job_name: "foo",
number: 3, configuration: None \x7d \x7d`, and rendering that value produces
`/job/folder1/job/foo/3` — the same string except that the trailing
slash is not reproduced. -/
theorem C4_folder_recursion_amended :
    url_to_path [] "/job/folder1/job/foo/3/".toList
        = some (.InFolder (.UrlEncodedName "folder1".toList)
            (.Build (.UrlEncodedName "foo".toList) (.Number 3) none)) ∧
      Path.display (.InFolder (.UrlEncodedName "folder1".toList)
          (.Build (.UrlEncodedName "foo".toList) (.Number 3) none))
        = "/job/folder1/job/foo/3".toList := by
  decide

/-- Claim C5, counterexample: the input `/x` matches no known structural
pattern, yet the parser does not return `Raw` — it panics (indexing
`slashes[1]` on a path with a single slash), modelled as `none`. -/
theorem C5_raw_counterexample :
    url_to_path [] "/x".toList = none := by
  decide

/-- Claim C5, amended: for every input whose path contains at least two
slashes and whose `(first segment, slash count)` shape matches none of
the recognized patterns (`/view` with 3 slashes, `/job` with 3 to 6
slashes, `/queue` with 4 slashes), the parser returns `Raw` carrying the
input string unchanged, and rendering that `Raw` value reproduces the
input; inputs with fewer than two slashes instead panic. -/
theorem C5_raw_fallback_amended (url : List Char) (s0 s1 : Nat) (rest : List Nat)
    (hsl : slashPositions url = s0 :: s1 :: rest)
    (hview : ¬(slice url 0 s1 = "/view".toList ∧ rest.length = 1))
    (hjob : ¬(slice url 0 s1 = "/job".toList ∧ (1 ≤ rest.length ∧ rest.length ≤ 4)))
    (hqueue : ¬(slice url 0 s1 = "/queue".toList ∧ rest.length = 2)) :
    url_to_path [] url = some (.Raw url) ∧ Path.display (.Raw url) = url := by
  refine ⟨?_, rfl⟩
  match url, hsl, hview, hjob, hqueue with
  | c :: cs, hsl, hview, hjob, hqueue =>
  have h0 : url_to_path [] (c :: cs) =
      classifyPath (fun u => url_to_pathF (c :: cs).length [] u) (c :: cs)
        (slashPositions (c :: cs)) := rfl
  rw [h0, hsl]
  rcases rest with _ | ⟨r2, _ | ⟨r3, _ | ⟨r4, _ | ⟨r5, _ | ⟨r6, rest6⟩⟩⟩⟩⟩
  · simp only [classifyPath]
  · simp only [classifyPath]
    rw [if_neg (fun h => hview ⟨h, rfl⟩), if_neg (fun h => hjob ⟨h, by simp⟩)]
  · simp only [classifyPath]
    rw [if_neg (fun h => hjob ⟨h, by simp⟩), if_neg (fun h => hqueue ⟨h, rfl⟩)]
  · simp only [classifyPath]
    rw [if_neg (fun h => hjob ⟨h, by simp⟩)]
  · simp only [classifyPath]
    rw [if_neg (fun h => hjob ⟨h, by simp⟩)]
  · simp only [classifyPath]

/-- Claim C5, amended, witness: `/unknown/path/` parses to
`Raw \x7b path: "/unknown/path/" \x7d` and renders back identically. -/
theorem C5_raw_fallback_amended_witness :
    url_to_path [] "/unknown/path/".toList = some (.Raw "/unknown/path/".toList) ∧
      Path.display (.Raw "/unknown/path/".toList) = "/unknown/path/".toList :=
  C5_raw_fallback_amended "/unknown/path/".toList 0 8 [13] (by decide) (by decide)
    (by decide) (by decide)

/-- Claim C6: parsing `/queue/item/<id>/` with a well-formed `i32` id
returns `QueueItem \x7b id \x7d`; a malformed id is surfaced as a failure
(the `unwrap` panic, modelled as `none`), never silently defaulted and
never a fallback to `Raw`. -/
theorem C6_queue_item (s : List Char) (hs : '/' ∉ s) :
    url_to_path [] ("/queue/item/".toList ++ (s ++ ['/'])) =
      match parseI32 s with
      | some i => some (.QueueItem i)
      | none => none := by
  have hsl : slashPositions ("/queue/item/".toList ++ (s ++ ['/']))
      = [0, 6, 11, 12 + s.length] := by
    show slashPositionsAux _ 0 = _
    have h1 : slashPositionsAux ("/queue/item/".toList ++ (s ++ ['/'])) 0
        = 0 :: 6 :: 11 :: slashPositionsAux (s ++ ['/']) 12 := rfl
    rw [h1, slashAux_append s hs, slashAux_single]
  have h0 : url_to_path [] ("/queue/item/".toList ++ (s ++ ['/'])) =
      classifyPath (fun u => url_to_pathF ("/queue/item/".toList ++ (s ++ ['/'])).length [] u)
        ("/queue/item/".toList ++ (s ++ ['/']))
        (slashPositions ("/queue/item/".toList ++ (s ++ ['/']))) := rfl
  rw [h0, hsl]
  have hseg : slice ("/queue/item/".toList ++ (s ++ ['/'])) 0 6 = "/queue".toList := rfl
  have hid : slice ("/queue/item/".toList ++ (s ++ ['/'])) (11 + 1)
      (("/queue/item/".toList ++ (s ++ ['/'])).length - 1) = s := by
    show ((("/queue/item/".toList ++ (s ++ ['/'])).drop (11 + 1)).take _) = s
    have hd12 : ("/queue/item/".toList ++ (s ++ ['/'])).drop (11 + 1) = s ++ ['/'] := rfl
    have hlen : ("/queue/item/".toList ++ (s ++ ['/'])).length = s.length + 13 := by
      simp <;> omega
    rw [hd12, hlen, show s.length + 13 - 1 - (11 + 1) = s.length from by omega, take_len_append]
  simp only [classifyPath]
  rw [hseg]
  rw [if_neg (by decide : ¬ ("/queue".toList = "/job".toList))]
  simp only [↓reduceIte]
  rw [hid]

/-- Claim C6, witness: `/queue/item/32/` parses to `QueueItem 32`, and
`/queue/item/abc/` is a surfaced failure, not `Raw` or a default. -/
theorem C6_queue_item_witness :
    url_to_path [] ("/queue/item/".toList ++ ("32".toList ++ ['/']))
        = some (.QueueItem 32) ∧
      url_to_path [] ("/queue/item/".toList ++ ("abc".toList ++ ['/'])) = none := by
  constructor
  · exact (C6_queue_item "32".toList (by decide)).trans (by decide)
  · exact (C6_queue_item "abc".toList (by decide)).trans (by decide)

/-- Claim C7: the object node `builds` with children `url`, `result` and
the object child `actions` (with child `causes`) renders to
`builds[url,result,actions[causes]]`; the leaf `builds` with range
`[0,10)` renders to `builds\x7b0,10\x7d`; and for every tree, children are
serialized in the order they were appended, never sorted: for every node
shape (named or root group, with or without a range) and every list of
appended child trees `ts`, the children render comma-joined exactly in
the order of `ts`. -/
theorem C7_tree_query_render :
    ((((TreeBuilder.object "builds".toList).with_subfield (.ofStr "url".toList)).with_subfield
          (.ofStr "result".toList)).with_subfield
        (((TreeBuilder.object "actions".toList).with_subfield
          (.ofStr "causes".toList)).build)).build.render
        = "builds[url,result,actions[causes]]".toList ∧
      (((TreeBuilder.object "builds".toList).with_range (0, 10)).build).render
        = "builds\x7b0,10\x7d".toList ∧
      (∀ (k : List Char) (ts : List TreeQueryParam),
        (((TreeBuilder.object k).with_subfields ts).build).render
          = match ts with
            | [] => k
            | _ => k ++ '[' :: (joinComma (ts.map TreeQueryParam.render) ++ [']'])) ∧
      (∀ (k : List Char) (ts : List TreeQueryParam) (r : Nat × Nat),
        ((((TreeBuilder.object k).with_subfields ts).with_range r).build).render
          = match ts with
            | [] => k ++ rangeSuffix r
            | _ => k ++ '[' ::
                (joinComma (ts.map TreeQueryParam.render) ++ ']' :: rangeSuffix r)) ∧
      (∀ ts : List TreeQueryParam,
        ((TreeBuilder.new.with_subfields ts).build).render
          = joinComma (ts.map TreeQueryParam.render)) ∧
      (∀ (ts : List TreeQueryParam) (r : Nat × Nat),
        (((TreeBuilder.new.with_subfields ts).with_range r).build).render
          = joinComma (ts.map TreeQueryParam.render) ++ rangeSuffix r) := by
  refine ⟨by rfl, by rfl, fun k ts => ?_, fun k ts r => ?_, fun ts => ?_, fun ts r => ?_⟩
  · show (TreeBuilder.with_subfields ⟨.mk (some k) .nil none⟩ ts).build.render = _
    rw [with_subfields_eq]
    show (TreeQueryParam.mk (some k) (TreeSubkeys.ofList ts) none).render = _
    cases ts with
    | nil => rfl
    | cons t ts2 =>
      show k ++ '[' :: (TreeSubkeys.renderJoin (TreeSubkeys.ofList (t :: ts2)) ++ [']'])
          = k ++ '[' :: (joinComma ((t :: ts2).map TreeQueryParam.render) ++ [']'])
      rw [renderJoin_ofList]
  · show ((TreeBuilder.with_subfields ⟨.mk (some k) .nil none⟩ ts).with_range r).build.render = _
    rw [with_subfields_eq]
    show (TreeQueryParam.mk (some k) (TreeSubkeys.ofList ts) (some r)).render = _
    cases ts with
    | nil => rfl
    | cons t ts2 =>
      show k ++ '[' :: (TreeSubkeys.renderJoin (TreeSubkeys.ofList (t :: ts2))
            ++ ']' :: rangeSuffix r)
          = k ++ '[' :: (joinComma ((t :: ts2).map TreeQueryParam.render) ++ ']' :: rangeSuffix r)
      rw [renderJoin_ofList]
  · show (TreeBuilder.with_subfields ⟨.mk none .nil none⟩ ts).build.render = _
    rw [with_subfields_eq]
    show TreeSubkeys.renderJoin (TreeSubkeys.ofList ts) = _
    rw [renderJoin_ofList]
  · show ((TreeBuilder.with_subfields ⟨.mk none .nil none⟩ ts).with_range r).build.render = _
    rw [with_subfields_eq]
    show TreeSubkeys.renderJoin (TreeSubkeys.ofList ts) ++ rangeSuffix r = _
    rw [renderJoin_ofList]

/-- Claim C8: the renderer writes a raw name `Name::Name(s)` as the
percent-encoding of `s` and an already-encoded name
`Name::UrlEncodedName(s)` verbatim; e.g. the raw name `my job` is
written `my%20job`, while the already-encoded `my%20job` is unchanged. -/
theorem C8_name_encoding :
    (∀ s : List Char, Name.display (.Name s) = urlencode s) ∧
      (∀ s : List Char, Name.display (.UrlEncodedName s) = s) ∧
      Name.display (.Name "my job".toList) = "my%20job".toList ∧
      Name.display (.UrlEncodedName "my%20job".toList) = "my%20job".toList :=
  ⟨fun _ => rfl, fun _ => rfl, by decide, rfl⟩

/-- Claim C9: the conversion from `AdvancedQuery` to the GET query
parameters yields exactly one of `depth` or `tree` and never both:
`Depth(d)` becomes `depth = Some(d), tree = None`, `Tree(t)` becomes
`depth = None, tree = Some(t)`, and for every query the two `isSome`
flags are opposite. -/
theorem C9_depth_xor_tree :
    (∀ d, InternalAdvancedQueryParams.ofQuery (.Depth d)
        = ⟨some d, none⟩) ∧
      (∀ t, InternalAdvancedQueryParams.ofQuery (.Tree t)
        = ⟨none, some t⟩) ∧
      ∀ q, (InternalAdvancedQueryParams.ofQuery q).depth.isSome
        = !(InternalAdvancedQueryParams.ofQuery q).tree.isSome := by
  refine ⟨fun d => rfl, fun t => rfl, fun q => ?_⟩
  cases q <;> rfl

/-- Claim C10: for every path of shape `/queue/<X>/<N>/` (four slashes,
first segment `queue`) where `<N>` parses as an `i32`, the parser
returns `QueueItem \x7b id: N \x7d` regardless of the second segment — the
literal `item` is never checked. -/
theorem C10_queue_segment_unchecked (x s : List Char) (hx : '/' ∉ x) (hs : '/' ∉ s)
    (v : Int) (hv : parseI32 s = some v) :
    url_to_path [] ("/queue/".toList ++ (x ++ ('/' :: (s ++ ['/']))))
      = some (.QueueItem v) := by
  have hsl : slashPositions ("/queue/".toList ++ (x ++ ('/' :: (s ++ ['/']))))
      = [0, 6, 7 + x.length, 7 + x.length + 1 + s.length] := by
    show slashPositionsAux _ 0 = _
    have h1 : slashPositionsAux ("/queue/".toList ++ (x ++ ('/' :: (s ++ ['/'])))) 0
        = 0 :: 6 :: slashPositionsAux (x ++ ('/' :: (s ++ ['/']))) 7 := rfl
    rw [h1, slashAux_append x hx, slashAux_slash, slashAux_append s hs, slashAux_single]
  have h0 : url_to_path [] ("/queue/".toList ++ (x ++ ('/' :: (s ++ ['/'])))) =
      classifyPath
        (fun u => url_to_pathF ("/queue/".toList ++ (x ++ ('/' :: (s ++ ['/'])))).length [] u)
        ("/queue/".toList ++ (x ++ ('/' :: (s ++ ['/']))))
        (slashPositions ("/queue/".toList ++ (x ++ ('/' :: (s ++ ['/'])))))  := rfl
  rw [h0, hsl]
  have hseg : slice ("/queue/".toList ++ (x ++ ('/' :: (s ++ ['/'])))) 0 6
      = "/queue".toList := rfl
  have hid : slice ("/queue/".toList ++ (x ++ ('/' :: (s ++ ['/'])))) (7 + x.length + 1)
      (("/queue/".toList ++ (x ++ ('/' :: (s ++ ['/'])))).length - 1) = s := by
    show ((("/queue/".toList ++ (x ++ ('/' :: (s ++ ['/'])))).drop (7 + x.length + 1)).take _) = s
    have hre : "/queue/".toList ++ (x ++ ('/' :: (s ++ ['/'])))
        = (("/queue/".toList ++ x) ++ ['/']) ++ (s ++ ['/']) := by simp
    have hpl : (("/queue/".toList ++ x) ++ ['/']).length = 7 + x.length + 1 := by
      simp <;> omega
    have hlen2 : ((("/queue/".toList ++ x) ++ ['/']) ++ (s ++ ['/'])).length
        = x.length + s.length + 9 := by
      simp <;> omega
    rw [hre, ← hpl, drop_len_append, hpl, hlen2,
      show x.length + s.length + 9 - 1 - (7 + x.length + 1) = s.length from by omega,
      take_len_append]
  simp only [classifyPath]
  rw [hseg]
  rw [if_neg (by decide : ¬ ("/queue".toList = "/job".toList))]
  simp only [↓reduceIte]
  rw [hid, hv]

/-- Claim C10, witness: `/queue/anything/5/` parses to `QueueItem 5`
even though the second segment is not `item`. -/
theorem C10_queue_segment_unchecked_witness :
    url_to_path [] ("/queue/".toList ++ ("anything".toList ++ ('/' :: ("5".toList ++ ['/']))))
      = some (.QueueItem 5) :=
  C10_queue_segment_unchecked "anything".toList "5".toList (by decide) (by decide) 5 (by decide)

end JenkinsApi
